import Mathlib

/-!
Verification of the simple-log-analyzer core: per-vendor line parsing
(Meraki, UniFi, WatchGuard, Palo Alto), the ParseStats accumulator, and the
three aggregation operations of cli.py (collect_top_counts, collect_trend,
collect_noise_candidates), shallowly embedded as executable Lean functions.

Conventions of the embedding:
* Python `str` values are Lean `String`s; per-character work happens on
  `String.data : List Char`.
* The regular-expression grammars of the four parsers are translated to
  deterministic maximal-munch scanners.  Each pattern was analysed by hand:
  every quantifier either ranges over a character class disjoint from what
  follows it (so greedy matching needs no backtracking), or the finitely many
  backtracking alternatives are enumerated explicitly (the lazy `\S+?`
  hostname of the UniFi grammar, the lazy process fields, and the optional
  `msg_id` group of the WatchGuard grammar).
* Python character classes `\w`, `\d`, `\s` are modelled on their ASCII
  fragment, which covers every character the log grammars accept.
* Rational numbers stand in for Python floats in the noise-candidate
  computation; the divisions involved are exact at the scale of the claims.
-/

/-- ASCII fragment of Python's regex class `\s` (and of `str.strip`). -/
def isPySpace (c : Char) : Bool :=
  c = ' ' || c = '\t' || c = '\n' || c = '\r' || c = '\x0b' || c = '\x0c'

/-- ASCII fragment of Python's regex class `\w`: letters, digits, underscore. -/
def isWordChar (c : Char) : Bool :=
  c.isAlphanum || c = '_'

/-- Python's regex class `\d` (ASCII digits). -/
def isDigitChar (c : Char) : Bool :=
  c.isDigit

/-- Greedy scan: the maximal run of characters satisfying `p`, which must be
nonempty, together with the remaining input.  This is the exact semantics of a
greedy `C+` regex atom whose class `C` is disjoint from what can follow it. -/
def chompRun (p : Char → Bool) (l : List Char) : Option (List Char × List Char) :=
  match l.takeWhile p with
  | [] => none
  | r => some (r, l.dropWhile p)

/-- Python `line.rstrip("\n")`: remove every trailing newline character. -/
def pyRstripNl (s : String) : String :=
  String.mk ((s.data.reverse.dropWhile (fun c => c = '\n')).reverse)

/-- Python `str.strip()` (ASCII whitespace fragment). -/
def pyStrip (s : String) : String :=
  String.mk (((s.data.dropWhile isPySpace).reverse.dropWhile isPySpace).reverse)

/-- Python `str.lower()` (ASCII fragment). -/
def pyLower (s : String) : String :=
  String.mk (s.data.map Char.toLower)

/-- Is `needle` a contiguous sublist of `hay`? -/
def subSearch (needle : List Char) : List Char → Bool
  | [] => needle.isEmpty
  | c :: rest => needle.isPrefixOf (c :: rest) || subSearch needle rest

/-- Python `needle in hay` substring test (true for the empty needle). -/
def containsSub (hay needle : String) : Bool :=
  needle.data.isEmpty || subSearch needle.data hay.data

/-- Python `s.startswith(p)`. -/
def pyStartsWith (s p : String) : Bool :=
  p.data.isPrefixOf s.data

/-- Python `any(w in hay for w in ws)`. -/
def anyContains (hay : String) (ws : List String) : Bool :=
  ws.any (fun w => containsSub hay w)

/-- `.*$` at the end of a pattern, applied to a remainder `r` that (coming
from a line already stripped of trailing newlines) never ends in `'\n'`:
`.` cannot cross a newline and `$` only matches at the end of the string or
before a final newline, so the remainder matches exactly when it contains no
newline at all. -/
def noNl (l : List Char) : Bool :=
  !l.contains '\n'

/-- ParseStats from parsers/__init__.py: counters for one parse run.  The
`rejected` dict is modelled as an association list in insertion order with
unique keys, exactly like a Python dict. -/
structure ParseStats where
  total_lines : Nat
  parsed : Nat
  rejected : List (String × Nat)
deriving DecidableEq, Repr

/-- A freshly constructed `ParseStats()`. -/
def ParseStats.start : ParseStats :=
  { total_lines := 0, parsed := 0, rejected := [] }

/-- `ParseStats.note_success`. -/
def ParseStats.noteSuccess (s : ParseStats) : ParseStats :=
  { s with total_lines := s.total_lines + 1, parsed := s.parsed + 1 }

/-- The dict update `rejected[reason] += 1` (inserting `reason ↦ 0` first when
absent): increment in place if present, else append at the end. -/
def bumpReason : List (String × Nat) → String → List (String × Nat)
  | [], r => [(r, 1)]
  | (k, v) :: rest, r =>
    if k = r then (k, v + 1) :: rest else (k, v) :: bumpReason rest r

/-- `ParseStats.note_failure`. -/
def ParseStats.noteFailure (s : ParseStats) (reason : String) : ParseStats :=
  { s with total_lines := s.total_lines + 1, rejected := bumpReason s.rejected reason }

/-- `sum(rejected.values())`. -/
def sumRejected (s : ParseStats) : Nat :=
  (s.rejected.map (fun p => p.2)).sum

/-- The documented ParseStats invariant. -/
def statsInv (s : ParseStats) : Prop :=
  s.total_lines = s.parsed + sumRejected s

theorem bumpReason_sum (d : List (String × Nat)) (r : String) :
    ((bumpReason d r).map (fun p => p.2)).sum = (d.map (fun p => p.2)).sum + 1 := by
  induction d with
  | nil => simp [bumpReason]
  | cons p rest ih =>
    cases p with
    | mk k v =>
      by_cases h : k = r
      · simp [bumpReason, h]
        omega
      · simp [bumpReason, h, ih]
        omega

/-- A normalized record: a Python `dict[str, str | None]` in insertion order. -/
abbrev Rec := List (String × Option String)

/-- The single outcome of presenting one line to a parser: exactly one record
is yielded, or exactly one rejection reason is tallied. -/
inductive Outcome where
  | record (r : Rec)
  | reject (reason : String)
deriving DecidableEq, Repr

/-- The only exception the four parse loops can raise on a line. -/
inductive PyExn where
  | valueError
deriving DecidableEq, Repr

instance [DecidableEq ε] [DecidableEq α] : DecidableEq (Except ε α) := fun a b =>
  match a, b with
  | .error x, .error y =>
    if h : x = y then isTrue (by rw [h]) else isFalse (by simp [h])
  | .ok x, .ok y =>
    if h : x = y then isTrue (by rw [h]) else isFalse (by simp [h])
  | .error _, .ok _ => isFalse (by simp)
  | .ok _, .error _ => isFalse (by simp)

/-- The four captures of the shared syslog prefix grammar
`^(\w{3})\s+(\d{1,2})\s+(\d{2}:\d{2}:\d{2})\s+(\S+)\s+`. -/
structure SyslogHead where
  month : String
  day : String
  time : String
  host : String
deriving DecidableEq, Repr

/-- Deterministic scanner for the shared syslog prefix.  `\w{3}` takes exactly
three word characters and the following `\s+` forbids a fourth; the greedy
`\d{1,2}` succeeds exactly when the maximal digit run has length 1 or 2 and is
followed by whitespace; the time is a fixed eight-character shape followed by
whitespace; the host is a maximal nonempty run of non-whitespace followed by
whitespace.  Returns the captures and the input after the final `\s+`. -/
def matchSyslogHead (l : List Char) : Option (SyslogHead × List Char) := do
  let m1 :: m2 :: m3 :: r0 := l | none
  guard (isWordChar m1 && isWordChar m2 && isWordChar m3)
  let (_, r1) ← chompRun isPySpace r0
  let (ds, r2) ← chompRun isDigitChar r1
  guard (ds.length ≤ 2)
  let (_, r3) ← chompRun isPySpace r2
  let t1 :: t2 :: c1 :: t3 :: t4 :: c2 :: t5 :: t6 :: r4 := r3 | none
  guard (isDigitChar t1 && isDigitChar t2 && c1 = ':' && isDigitChar t3 &&
    isDigitChar t4 && c2 = ':' && isDigitChar t5 && isDigitChar t6)
  let (_, r5) ← chompRun isPySpace r4
  let (hs, r6) ← chompRun (fun c => !isPySpace c) r5
  let (_, r7) ← chompRun isPySpace r6
  pure (⟨String.mk [m1, m2, m3], String.mk ds,
    String.mk [t1, t2, c1, t3, t4, c2, t5, t6], String.mk hs⟩, r7)

/-- Captures of the Meraki body grammar
`(\d+)\s+([\d.]+)\s+(\S+)\s+(\S+)\s+(.*)$`. -/
structure MerakiBody where
  priority : String
  timestamp : String
  deviceType : String
  eventType : String
  message : String
deriving DecidableEq, Repr

/-- Deterministic scanner for MERAKI_PATTERN (each greedy atom's class is
disjoint from the whitespace that must follow it). -/
def merakiMatch (l : List Char) : Option (SyslogHead × MerakiBody) := do
  let (h, r0) ← matchSyslogHead l
  let (pr, r1) ← chompRun isDigitChar r0
  let (_, r2) ← chompRun isPySpace r1
  let (ts, r3) ← chompRun (fun c => isDigitChar c || c = '.') r2
  let (_, r4) ← chompRun isPySpace r3
  let (dev, r5) ← chompRun (fun c => !isPySpace c) r4
  let (_, r6) ← chompRun isPySpace r5
  let (ev, r7) ← chompRun (fun c => !isPySpace c) r6
  let (_, r8) ← chompRun isPySpace r7
  guard (noNl r8)
  pure (h, ⟨String.mk pr, String.mk ts, String.mk dev, String.mk ev, String.mk r8⟩)

/-- Python dict assignment `d[k] = v`: overwrite in place, else append. -/
def dictSet : List (String × String) → String → String → List (String × String)
  | [], k, v => [(k, v)]
  | (k0, v0) :: rest, k, v =>
    if k0 = k then (k0, v) :: rest else (k0, v0) :: dictSet rest k v

/-- One step of scanning for `(\w+)[:=]([^\s]+)` occurrences (re.finditer
semantics): at the current position, a match requires a nonempty maximal word
run, then `:` or `=`, then a nonempty maximal non-whitespace run; scanning
resumes after a match, or one character later after a failure.  Each step
consumes at least one character, so fuel equal to the input length suffices;
the fuel-exhausted branch is unreachable. -/
def findKVsGo (fuel : Nat) (l : List Char) (acc : List (String × String)) :
    List (String × String) :=
  match fuel, l with
  | 0, _ => acc
  | _, [] => acc
  | fuel + 1, c :: rest =>
    let w := (c :: rest).takeWhile isWordChar
    if w.isEmpty then findKVsGo fuel rest acc
    else
      match (c :: rest).dropWhile isWordChar with
      | [] => findKVsGo fuel rest acc
      | sep :: r2 =>
        if sep = ':' || sep = '=' then
          let v := r2.takeWhile (fun c => !isPySpace c)
          if v.isEmpty then findKVsGo fuel rest acc
          else
            findKVsGo fuel (r2.dropWhile (fun c => !isPySpace c))
              (dictSet acc (String.mk w) (String.mk v))
        else findKVsGo fuel rest acc

/-- `_parse_key_value_pairs` of meraki.py. -/
def parseKeyValuePairs (text : String) : List (String × String) :=
  findKVsGo text.data.length text.data []

/-- Python `d.get(k)` on the key-value dict. -/
def pyDictGet (d : List (String × String)) (k : String) : Option String :=
  (d.find? (fun p => p.1 = k)).map (fun p => p.2)

/-- `_infer_log_level` of meraki.py. -/
def merakiInferLogLevel (eventType message : String) : String :=
  if eventType = "firewall" then
    if containsSub (pyLower message) "deny" || containsSub (pyLower message) "block" then
      "warning"
    else "info"
  else if eventType = "events" then
    if containsSub (pyLower message) "error" || containsSub (pyLower message) "fail" then
      "error"
    else "info"
  else if eventType = "ip_flow_start" || eventType = "ip_flow_end" then "info"
  else if eventType = "urls" then "info"
  else "info"

/-- `_categorize_event` of meraki.py. -/
def merakiCategorizeEvent (eventType message : String) : String :=
  if eventType = "ip_flow_start" || eventType = "ip_flow_end" then "network-flow"
  else if eventType = "urls" then "web-security"
  else if eventType = "firewall" then "firewall"
  else if eventType = "events" then
    if containsSub (pyLower message) "dhcp" then "dhcp" else "system-events"
  else "other"

/-- The keys looked up from the key-value pairs by MerakiParser.parse. -/
def merakiKvKeys : List String :=
  ["src", "dst", "protocol", "sport", "dport", "mac",
   "translated_src_ip", "translated_port", "pattern"]

/-- The per-line body of MerakiParser.parse, after `rstrip("\n")`. -/
def merakiBody (line : String) : Outcome :=
  if line = "" then .reject "empty"
  else
    match merakiMatch line.data with
    | none => .reject "format-mismatch"
    | some (h, b) =>
      let kv := parseKeyValuePairs b.message
      .record
        ([("syslog_month", some h.month),
          ("syslog_day", some h.day),
          ("syslog_time", some h.time),
          ("host_ip", some h.host),
          ("priority", some b.priority),
          ("epoch_timestamp", some b.timestamp),
          ("device_type", some b.deviceType),
          ("event_type", some b.eventType),
          ("message", some b.message),
          ("log_level", some (merakiInferLogLevel b.eventType b.message)),
          ("category", some (merakiCategorizeEvent b.eventType b.message))] ++
          merakiKvKeys.map (fun k => (k, pyDictGet kv k)))

/-- One line of MerakiParser.parse (the raw line still carries its newline). -/
def merakiLine (raw : String) : Outcome :=
  merakiBody (pyRstripNl raw)

/-- Digits of a Python integer literal body: nonempty, with single
underscores allowed only between digits.  Returns the value. -/
def pyDigitsGo : List Char → Nat → Option Nat
  | [], acc => some acc
  | '_' :: c :: r, acc =>
    if isDigitChar c then pyDigitsGo r (acc * 10 + (c.toNat - 48)) else none
  | ['_'], _ => none
  | c :: r, acc =>
    if isDigitChar c then pyDigitsGo r (acc * 10 + (c.toNat - 48)) else none

/-- Parse a nonempty digit sequence (with grouping underscores). -/
def pyDigits : List Char → Option Nat
  | [] => none
  | c :: r => if isDigitChar c then pyDigitsGo r (c.toNat - 48) else none

/-- Python `int(s)` for base 10: surrounding whitespace and one sign are
allowed; a non-numeric body raises ValueError, modelled as `none`.
(Non-ASCII digits, accepted by CPython, are outside the model.) -/
def pyInt (s : String) : Option Int :=
  match ((s.data.dropWhile isPySpace).reverse.dropWhile isPySpace).reverse with
  | '+' :: ds => (pyDigits ds).map (fun n => (n : Int))
  | '-' :: ds => (pyDigits ds).map (fun n => -(n : Int))
  | ds => (pyDigits ds).map (fun n => (n : Int))

/-- Captures of the CEF grammar body
`CEF:(\d+)\|([^|]+)\|([^|]+)\|([^|]+)\|([^|]+)\|([^|]+)\|([^|]+)\|(.*)$`. -/
structure CefBody where
  cefVersion : String
  vendor : String
  product : String
  productVersion : String
  eventId : String
  eventName : String
  severity : String
  extensions : String
deriving DecidableEq, Repr

/-- One `([^|]+)\|` atom: a maximal nonempty run of non-pipe characters
followed by the pipe itself. -/
def pipeField (l : List Char) : Option (List Char × List Char) := do
  let (f, r) ← chompRun (fun c => !(c = '|')) l
  let '|' :: r1 := r | none
  pure (f, r1)

/-- Deterministic scanner for CEF_PATTERN of unifi.py. -/
def unifiCefMatch (l : List Char) : Option (SyslogHead × CefBody) := do
  let (h, r0) ← matchSyslogHead l
  let 'C' :: 'E' :: 'F' :: ':' :: r1 := r0 | none
  let (ver, r2) ← chompRun isDigitChar r1
  let '|' :: r3 := r2 | none
  let (vendor, r4) ← pipeField r3
  let (product, r5) ← pipeField r4
  let (productVersion, r6) ← pipeField r5
  let (eventId, r7) ← pipeField r6
  let (eventName, r8) ← pipeField r7
  let (severity, r9) ← pipeField r8
  guard (noNl r9)
  pure (h, ⟨String.mk ver, String.mk vendor, String.mk product,
    String.mk productVersion, String.mk eventId, String.mk eventName,
    String.mk severity, String.mk r9⟩)

/-- Characters at which the lazy UniFi process capture `[^\[\]:]+?` must
stop. -/
def unifiProcStop (c : Char) : Bool :=
  c = '[' || c = ']' || c = ':'

/-- The greedy `(?:\[(\d+)\])*` atom: consume complete `[digits]` groups,
keeping the last captured pid (re semantics for a repeated group); stop at the
first position not starting a complete group.  Fuel decreases every
iteration and each iteration consumes at least three characters, so fuel
equal to the input length suffices. -/
def pidStar (fuel : Nat) (l : List Char) (acc : Option String) :
    Option String × List Char :=
  match fuel, l with
  | 0, _ => (acc, l)
  | fuel + 1, '[' :: r =>
    match chompRun isDigitChar r with
    | none => (acc, '[' :: r)
    | some (ds, r1) =>
      match r1 with
      | ']' :: r2 => pidStar fuel r2 (some (String.mk ds))
      | _ => (acc, '[' :: r)
  | _, _ => (acc, l)

/-- Captures of the UniFi syslog body. -/
structure UnifiSyslogBody where
  hostname : String
  process : String
  pid : Option String
  message : String
deriving DecidableEq, Repr

/-- Deterministic scanner for SYSLOG_PATTERN of unifi.py.

The lazy hostname `(?P<hostname>\S+?):?\s+` can only stop where whitespace
follows, i.e. at the end of its token, optionally eating one trailing colon
(the shorter alternative is tried first, so a trailing colon is always
stripped when the token has at least two characters).  The lazy process
capture `[^\[\]:]+?` stops at the first `[`, `]` or `:`; if that stop
character opens the token the engine backtracks one character into the
preceding whitespace run (possible only when that run has length at least
two), making the process capture the run's final whitespace character.
After the process, the pid groups, a literal colon and `\s+` are required. -/
def unifiSyslogMatch (l : List Char) : Option (SyslogHead × UnifiSyslogBody) := do
  let (h, r0) ← matchSyslogHead l
  let (tok, r1) ← chompRun (fun c => !isPySpace c) r0
  let hostname :=
    if 2 ≤ tok.length ∧ tok.getLast? = some ':' then tok.dropLast else tok
  let (sp, r2) ← chompRun isPySpace r1
  let pre := r2.takeWhile (fun c => !unifiProcStop c)
  let rest := r2.dropWhile (fun c => !unifiProcStop c)
  guard (!rest.isEmpty)
  let process ←
    if pre.isEmpty then
      if 2 ≤ sp.length then (sp.getLast?).map (fun c => String.mk [c]) else none
    else some (String.mk pre)
  let (pid, r3) := pidStar rest.length rest none
  let ':' :: r4 := r3 | none
  let (_, r5) ← chompRun isPySpace r4
  guard (noNl r5)
  pure (h, ⟨String.mk hostname, process, pid, String.mk r5⟩)

/-- `_infer_log_level` of unifi.py. -/
def unifiInferLogLevel (message : String) : String :=
  let m := pyLower message
  if anyContains m ["error", "failed", "failure", "critical", "fatal"] then "error"
  else if anyContains m ["warn", "warning"] then "warning"
  else if anyContains m ["starting", "started", "stopping", "stopped", "finished", "succeeded"] then "info"
  else if containsSub m "debug" then "debug"
  else "info"

/-- `_categorize_process` of unifi.py. -/
def unifiCategorizeProcess (process : String) : String :=
  let p := pyLower process
  if p = "unifi-security" then "unifi-security"
  else if containsSub p "systemd" then "system"
  else if anyContains p ["kernel", "dmesg"] then "kernel"
  else if anyContains p ["mcad", "stamgr", "wevent", "ubios"] then "unifi-controller"
  else if anyContains p ["hostapd", "wpa"] then "wifi"
  else if anyContains p ["dhcp", "dns", "named"] then "network-services"
  else if anyContains p ["ssh", "sshd", "login"] then "auth"
  else "other"

/-- Does the stripped line start with a JSON-like character
(`startswith(("{", "}", '"', "]", "["))`)? -/
def startsJsonChar : List Char → Bool
  | [] => false
  | c :: _ => c = '\x7b' || c = '\x7d' || c = '"' || c = ']' || c = '['

/-- The per-line body of UniFiParser.parse, after `rstrip("\n")`.  The CEF
branch calls Python `int` on the severity capture, which raises ValueError
when that capture is not an integer literal. -/
def unifiBody (line : String) : Except PyExn Outcome :=
  if line = "" then .ok (.reject "empty")
  else if startsJsonChar (line.data.dropWhile isPySpace) then .ok (.reject "json-data")
  else
    match unifiCefMatch line.data with
    | some (h, b) =>
      match pyInt b.severity with
      | none => .error .valueError
      | some sev =>
        .ok (.record
          [("syslog_month", some h.month),
           ("syslog_day", some h.day),
           ("syslog_time", some h.time),
           ("host_ip", some h.host),
           ("hostname", some "CEF"),
           ("process", some "unifi-security"),
           ("pid", none),
           ("message", some (b.eventName ++ " (severity=" ++ b.severity ++ ")")),
           ("log_level", some (if 5 ≤ sev then "warning" else "info")),
           ("category", some "unifi-security")])
    | none =>
      match unifiSyslogMatch line.data with
      | none => .ok (.reject "format-mismatch")
      | some (h, b) =>
        .ok (.record
          [("syslog_month", some h.month),
           ("syslog_day", some h.day),
           ("syslog_time", some h.time),
           ("host_ip", some h.host),
           ("hostname", some b.hostname),
           ("process", some b.process),
           ("pid", b.pid),
           ("message", some b.message),
           ("log_level", some (unifiInferLogLevel b.message)),
           ("category", some (unifiCategorizeProcess b.process))])

/-- One line of UniFiParser.parse. -/
def unifiLine (raw : String) : Except PyExn Outcome :=
  unifiBody (pyRstripNl raw)

/-- Characters at which the lazy WatchGuard process capture `[^\[:]+?` must
stop (unlike UniFi, `]` is allowed inside the process). -/
def wgProcStop (c : Char) : Bool :=
  c = '[' || c = ':'

/-- Captures of the WatchGuard body. -/
structure WgBody where
  deviceId : String
  deviceName : String
  isoTimestamp : String
  process : String
  pid : Option String
  msgId : Option String
  message : String
deriving DecidableEq, Repr

/-- The optional `(?:msg_id="([^"]+)"\s+)?` group: literal `msg_id="`, a
maximal nonempty run of non-quote characters, the closing quote, and at least
one whitespace character; if any part fails the group matches nothing. -/
def wgMsgId (l : List Char) : Option (String × List Char) := do
  let 'm' :: 's' :: 'g' :: '_' :: 'i' :: 'd' :: '=' :: '"' :: r0 := l | none
  let (content, r1) ← chompRun (fun c => !(c = '"')) r0
  let '"' :: r2 := r1 | none
  let (_, r3) ← chompRun isPySpace r2
  pure (String.mk content, r3)

/-- Deterministic scanner for WATCHGUARD_PATTERN.  The lazy process capture
stops at the first `[` or `:` (backtracking one character into the preceding
whitespace run when that character opens the region, as for UniFi); the pid
group is optional and must be a complete `[digits]` immediately followed by
the literal colon, else the group matches nothing and the colon is required
at the stop character itself. -/
def watchguardMatch (l : List Char) : Option (SyslogHead × WgBody) := do
  let (h, r0) ← matchSyslogHead l
  let (devId, r1) ← chompRun (fun c => !isPySpace c) r0
  let (_, r2) ← chompRun isPySpace r1
  let (devName, r3) ← chompRun (fun c => !isPySpace c) r2
  let (_, r4) ← chompRun isPySpace r3
  let '(' :: r5 := r4 | none
  let (ts, r6) ← chompRun (fun c => !(c = ')')) r5
  let ')' :: r7 := r6 | none
  let (sp, r8) ← chompRun isPySpace r7
  let pre := r8.takeWhile (fun c => !wgProcStop c)
  let rest := r8.dropWhile (fun c => !wgProcStop c)
  guard (!rest.isEmpty)
  let process ←
    if pre.isEmpty then
      if 2 ≤ sp.length then (sp.getLast?).map (fun c => String.mk [c]) else none
    else some (String.mk pre)
  let (pid, r9) :=
    match rest with
    | '[' :: rr =>
      match chompRun isDigitChar rr with
      | none => (none, rest)
      | some (ds, rd) =>
        match rd with
        | ']' :: r10 => (some (String.mk ds), r10)
        | _ => (none, rest)
    | _ => (none, rest)
  let ':' :: r11 := r9 | none
  let (_, r12) ← chompRun isPySpace r11
  let (msgId, msgRest) :=
    match wgMsgId r12 with
    | some (m, r13) => (some m, r13)
    | none => (none, r12)
  guard (noNl msgRest)
  pure (h, ⟨String.mk devId, String.mk devName, String.mk ts, process, pid,
    msgId, String.mk msgRest⟩)

/-- `_infer_log_level_from_msg_id` of watchguard.py. -/
def wgInferLogLevel (msgId : Option String) (message : String) : String :=
  let fromContent :=
    let m := pyLower message
    if anyContains m ["error", "failed", "failure", "critical", "fatal", "down"] then "error"
    else if anyContains m ["warning", "block", "deny", "reject", "unknown"] then "warning"
    else "info"
  match msgId with
  | some m =>
    if pyStartsWith m "3001-" || pyStartsWith m "0207-" || pyStartsWith m "020B-" then
      "warning"
    else if pyStartsWith m "4001-" || pyStartsWith m "7600-" then "error"
    else fromContent
  | none => fromContent

/-- `_categorize_process` of watchguard.py. -/
def wgCategorizeProcess (process : String) : String :=
  let p := pyLower (pyStrip process)
  if p = "firewall" then "firewall"
  else if p = "iked" || p = "sslvpn" then "vpn"
  else if p = "dhcpd" then "network-services"
  else if p = "sessiond" then "session-management"
  else if p = "loggerd" || p = "admd" then "system"
  else if p = "sigd" then "security"
  else if p = "portald" || p = "gwcd" then "gateway"
  else if p = "certd" || p = "link-mon" then "monitoring"
  else "other"

/-- The per-line body of WatchGuardParser.parse, after `rstrip("\n")`. -/
def watchguardBody (line : String) : Outcome :=
  if line = "" then .reject "empty"
  else
    match watchguardMatch line.data with
    | none => .reject "format-mismatch"
    | some (h, b) =>
      .record
        [("syslog_month", some h.month),
         ("syslog_day", some h.day),
         ("syslog_time", some h.time),
         ("host_ip", some h.host),
         ("device_id", some b.deviceId),
         ("device_name", some b.deviceName),
         ("iso_timestamp", some b.isoTimestamp),
         ("process", some b.process),
         ("pid", b.pid),
         ("msg_id", b.msgId),
         ("message", some b.message),
         ("log_level", some (wgInferLogLevel b.msgId b.message)),
         ("category", some (wgCategorizeProcess b.process))]

/-- One line of WatchGuardParser.parse. -/
def watchguardLine (raw : String) : Outcome :=
  watchguardBody (pyRstripNl raw)

/-- States of the CPython `_csv` reader automaton (default dialect, one input
line, no embedded `'\n'`). -/
inductive CsvState where
  | startRecord
  | startField
  | inField
  | inQuoted
  | quoteInQuoted
  | eatCrnl
deriving DecidableEq, Repr

/-- `csv.field_size_limit()`. -/
def csvFieldLimit : Nat := 131072

/-- The message of the csv error raised when a carriage return is followed by
anything other than more end-of-line characters. -/
def csvCrError : String :=
  "new-line character seen in unquoted field - do you need to open the file in universal-newline mode?"

/-- The message of the csv error raised when a field grows past the limit. -/
def csvLimitError : String :=
  "field larger than field limit (131072)"

/-- Append a character to the current (reversed) field, enforcing the field
size limit exactly as the C reader does: the check fires when a character is
added to a field that already has `csvFieldLimit` characters. -/
def csvPush (cur : List Char) (c : Char) : Except String (List Char) :=
  if csvFieldLimit ≤ cur.length then .error csvLimitError else .ok (c :: cur)

/-- One-line run of the CPython csv reader automaton.  `cur` is the current
field reversed, `fields` the completed fields reversed.  Verified against
CPython 3.11 on: empty input (one zero-field row), unterminated quotes,
doubled quotes, a quote after a closing quote (non-strict merge), carriage
returns as trailing end-of-line characters, carriage returns mid-field
(error), and the field size limit. -/
def csvGo : List Char → CsvState → List Char → List String → Except String (List String)
  | [], st, cur, fields =>
    match st with
    | .startRecord => .ok fields.reverse
    | .startField => .ok (("" :: fields).reverse)
    | .eatCrnl => .ok fields.reverse
    | _ => .ok ((String.mk cur.reverse :: fields).reverse)
  | c :: rest, st, cur, fields =>
    match st with
    | .startRecord =>
      if c = '\r' then csvGo rest .eatCrnl cur fields
      else if c = '"' then csvGo rest .inQuoted cur fields
      else if c = ',' then csvGo rest .startField ([]) ("" :: fields)
      else
        match csvPush cur c with
        | .error e => .error e
        | .ok cur1 => csvGo rest .inField cur1 fields
    | .startField =>
      if c = '"' then csvGo rest .inQuoted cur fields
      else if c = ',' then csvGo rest .startField ([]) ("" :: fields)
      else if c = '\r' then csvGo rest .eatCrnl ([]) ("" :: fields)
      else
        match csvPush cur c with
        | .error e => .error e
        | .ok cur1 => csvGo rest .inField cur1 fields
    | .inField =>
      if c = ',' then csvGo rest .startField ([]) (String.mk cur.reverse :: fields)
      else if c = '\r' then csvGo rest .eatCrnl ([]) (String.mk cur.reverse :: fields)
      else
        match csvPush cur c with
        | .error e => .error e
        | .ok cur1 => csvGo rest .inField cur1 fields
    | .inQuoted =>
      if c = '"' then csvGo rest .quoteInQuoted cur fields
      else
        match csvPush cur c with
        | .error e => .error e
        | .ok cur1 => csvGo rest .inQuoted cur1 fields
    | .quoteInQuoted =>
      if c = '"' then
        match csvPush cur c with
        | .error e => .error e
        | .ok cur1 => csvGo rest .inQuoted cur1 fields
      else if c = ',' then csvGo rest .startField ([]) (String.mk cur.reverse :: fields)
      else if c = '\r' then csvGo rest .eatCrnl ([]) (String.mk cur.reverse :: fields)
      else
        match csvPush cur c with
        | .error e => .error e
        | .ok cur1 => csvGo rest .inField cur1 fields
    | .eatCrnl =>
      if c = '\r' then csvGo rest .eatCrnl cur fields
      else .error csvCrError

/-- `next(csv.reader([rest]))`: the list of fields of the single row parsed
from `rest` (an empty `rest` yields a row with no fields). -/
def csvRow (l : List Char) : Except String (List String) :=
  csvGo l .startRecord [] []

/-- FIELD_ALIASES of palo_alto.py, in insertion order. -/
def fieldAliases : List (Nat × String) :=
  [(0, "future_use"), (1, "receive_time"), (2, "serial_number"), (3, "log_type"),
   (4, "log_subtype"), (5, "config_version"), (6, "generated_time"), (7, "src_ip"),
   (8, "dst_ip"), (9, "nat_src_ip"), (10, "nat_dst_ip"), (11, "rule_name"),
   (12, "src_user"), (13, "dst_user"), (14, "application"), (15, "vsys"),
   (16, "src_zone"), (17, "dst_zone"), (18, "inbound_interface"),
   (19, "outbound_interface"), (20, "log_action"), (21, "logged_time"),
   (22, "session_id"), (23, "repeat_count"), (24, "src_port"), (25, "dst_port"),
   (26, "nat_src_port"), (27, "nat_dst_port"), (28, "flags"), (29, "protocol"),
   (30, "action"), (31, "bytes_total"), (32, "bytes_sent"), (33, "bytes_received"),
   (34, "packets"), (35, "session_start_time"), (36, "elapsed_time"),
   (37, "category"), (38, "padding"), (39, "seqno"), (40, "action_flags"),
   (41, "src_country"), (42, "dst_country"), (44, "packets_sent"),
   (45, "packets_received"), (46, "session_end_reason"), (47, "device_group"),
   (52, "device_name"), (53, "policy_type"), (55, "monitor_tag"),
   (56, "parent_session_id"), (57, "parent_start_time"),
   (60, "http2_connection_id"), (65, "rule_uuid"), (102, "generated_timestamp"),
   (105, "app_family"), (106, "app_technology"), (107, "app_risk_level"),
   (108, "app_risk_score"), (109, "app_characteristics"),
   (110, "app_subcategory"), (111, "app_identifier"), (112, "app_tunneled"),
   (113, "app_is_saas"), (114, "app_risk_category"), (115, "app_tunnel_category")]

/-- `_normalise_field` of palo_alto.py: strip, and map the empty string to
None. -/
def normaliseField (v : String) : Option String :=
  if pyStrip v = "" then none else some (pyStrip v)

/-- The per-line body of PaloAltoParser.parse, after `rstrip("\n")`.  The
SYSLOG_PREFIX regex is exactly the shared head; `line[prefix.end():]` is the
remainder after the head's final greedy `\s+`.  csv errors are caught and
tallied as `csv-error: <message>`. -/
def paloBody (line : String) : Outcome :=
  if line = "" then .reject "empty"
  else
    match matchSyslogHead line.data with
    | none => .reject "missing-prefix"
    | some (h, rest) =>
      match csvRow rest with
      | .error e => .reject ("csv-error: " ++ e)
      | .ok fields =>
        .record
          ([("syslog_host", some h.host),
            ("syslog_month", some h.month),
            ("syslog_day", some h.day),
            ("syslog_time", some h.time)] ++
            fieldAliases.filterMap (fun p =>
              if p.1 < fields.length then
                some (p.2, normaliseField (fields.getD p.1 ""))
              else none))

/-- One line of PaloAltoParser.parse. -/
def paloLine (raw : String) : Outcome :=
  paloBody (pyRstripNl raw)

/-- A per-line parser step: the outcome for one raw line, or an uncaught
exception.  The three total parsers are wrapped in `Except.ok`. -/
abbrev StepFn := String → Except PyExn Outcome

def merakiStep : StepFn := fun raw => .ok (merakiLine raw)

def unifiStepFn : StepFn := unifiLine

def watchguardStep : StepFn := fun raw => .ok (watchguardLine raw)

def paloStep : StepFn := fun raw => .ok (paloLine raw)

/-- The four vendor parsers' per-line steps. -/
def parserSteps : List StepFn :=
  [merakiStep, unifiStepFn, watchguardStep, paloStep]

/-- Applying one outcome to the stats, yielding the optional record. -/
def applyOutcome (s : ParseStats) : Outcome → ParseStats × Option Rec
  | .record r => (s.noteSuccess, some r)
  | .reject reason => (s.noteFailure reason, none)

/-- Result of a parse run. -/
structure RunResult where
  records : List Rec
  stats : ParseStats
  exn : Option PyExn
deriving DecidableEq, Repr

/-- Result of a parse run with a progress callback attached; `reported` is the
sequence of values handed to the callback, in order. -/
structure RunResultP where
  records : List Rec
  stats : ParseStats
  exn : Option PyExn
  reported : List Nat
deriving DecidableEq, Repr

/-- The parse loop without a progress callback (`advance_progress is None`):
each raw line is parsed, updating the stats; an uncaught exception aborts the
run. -/
def runNoCb (step : StepFn) : List String → ParseStats → RunResult
  | [], s => ⟨[], s, none⟩
  | line :: rest, s =>
    match step line with
    | .error e => ⟨[], s, some e⟩
    | .ok o =>
      let (s1, rec?) := applyOutcome s o
      let r := runNoCb step rest s1
      ⟨(match rec? with | some q => q :: r.records | none => r.records), r.stats, r.exn⟩

/-- The parse loop with a progress callback: `advance_progress(len(raw_line))`
is invoked once per raw line, before the line is examined, with the line's
character count (Python `len` on the decoded line). -/
def runWithCb (step : StepFn) : List String → ParseStats → RunResultP
  | [], s => ⟨[], s, none, []⟩
  | line :: rest, s =>
    let n := line.length
    match step line with
    | .error e => ⟨[], s, some e, [n]⟩
    | .ok o =>
      let (s1, rec?) := applyOutcome s o
      let r := runWithCb step rest s1
      ⟨(match rec? with | some q => q :: r.records | none => r.records),
        r.stats, r.exn, n :: r.reported⟩

/-- A cell of the columnar RecordTable: null, a string, or an integer
(integers also stand for the minute-bucket datetimes, which polars orders by
their underlying numeric value). -/
inductive Cell where
  | null
  | str (s : String)
  | int (n : Int)
deriving DecidableEq, Repr

/-- One table row: column name to cell.  Columns absent from the row read as
null, as in a polars frame where missing fields are null. -/
abbrev TblRow := List (String × Cell)

/-- `row[c]`, null when the row has no entry for `c`. -/
def cellAt (r : TblRow) (c : String) : Cell :=
  match List.lookup c r with
  | some v => v
  | none => Cell.null

/-- A polars DataFrame: its column names (the schema) and its rows. -/
structure Frame where
  cols : List String
  rows : List TblRow
deriving DecidableEq, Repr

/-- `str(value or "<missing>")`: Python's `or` substitutes the sentinel for
every falsy cell — null, the empty string, and the integer zero. -/
def displayCell : Cell → String
  | .null => "<missing>"
  | .str s => if s = "" then "<missing>" else s
  | .int n => if n = 0 then "<missing>" else toString n

/-- `group_by` key collection: the distinct cell values of a list, first
occurrence first (`seen` accumulates the values already emitted). -/
def dedupFirstAux [DecidableEq α] : List α → List α → List α
  | [], _ => []
  | x :: xs, seen =>
    if x ∈ seen then dedupFirstAux xs seen else x :: dedupFirstAux xs (x :: seen)

/-- Distinct values of a list, in order of first appearance. -/
def dedupFirst [DecidableEq α] (l : List α) : List α :=
  dedupFirstAux l []

/-- `pl.len()` within the group of rows whose `column` cell is `k`. -/
def countKey (f : Frame) (column : String) (k : Cell) : Nat :=
  (f.rows.filter (fun r => decide (cellAt r column = k))).length

/-- The integer content of a cell (null contributes nothing to a sum). -/
def cellInt : Cell → Int
  | .int n => n
  | _ => 0

/-- `pl.col(bytesCol).sum()` within the group of rows whose `column` cell is
`k`: polars' sum ignores nulls and returns 0 for an all-null group. -/
def sumBytes (f : Frame) (column bytesCol : String) (k : Cell) : Int :=
  ((f.rows.filter (fun r => decide (cellAt r column = k))).map
    (fun r => cellInt (cellAt r bytesCol))).sum

/-- Lexicographic order on character lists by code point — the order of
Python string comparison and of the polars Utf8 sort. -/
def charListLe : List Char → List Char → Bool
  | [], _ => true
  | _ :: _, [] => false
  | a :: as, b :: bs => if a = b then charListLe as bs else decide (a < b)

/-- String order by code points. -/
def strLe (a b : String) : Bool :=
  charListLe a.data b.data

/-- The total order used for the ascending group-key sort tiebreak.  polars
places nulls first (`nulls_last=False` is the default); values of one real
column share one type, so the cross-type cases are arbitrary but fixed. -/
def cellLe : Cell → Cell → Bool
  | .null, _ => true
  | .int _, .null => false
  | .int m, .int n => decide (m ≤ n)
  | .int _, .str _ => true
  | .str _, .null => false
  | .str _, .int _ => false
  | .str a, .str b => strLe a b

/-- One aggregated row of collect_top_counts: the group key, its event count,
its byte sum (0 when no bytes column exists), and the display-ready key. -/
structure GroupRow where
  key : Cell
  events : Nat
  bytes : Int
  display : String
deriving DecidableEq, Repr

/-- The sort order of collect_top_counts:
`sort(["events"(, "bytes"), column], descending=[True(, True), False])` —
events descending, then byte sums descending when the bytes column is
present, then group key ascending. -/
def topRel (hb : Bool) (a b : GroupRow) : Prop :=
  b.events < a.events ∨
    (a.events = b.events ∧
      ((hb = true ∧ (b.bytes < a.bytes ∨ (a.bytes = b.bytes ∧ cellLe a.key b.key = true))) ∨
       (hb = false ∧ cellLe a.key b.key = true)))

instance (hb : Bool) : DecidableRel (topRel hb) := fun a b => by
  unfold topRel; infer_instance

/-- The group row built for key `k`. -/
def topRowFor (f : Frame) (column : String) (hb : Bool) (bytesCol : String)
    (k : Cell) : GroupRow :=
  { key := k, events := countKey f column k,
    bytes := if hb then sumBytes f column bytesCol k else 0,
    display := displayCell k }

/-- collect_top_counts of cli.py.  Absent (`None`) exactly when the grouping
column is missing from the schema; otherwise the groups are aggregated,
sorted by `topRel` and truncated to `top` rows.  The comparison admits no
ties between distinct groups (keys are distinct and `cellLe` is
antisymmetric), so any sorting algorithm yields the polars result; the
embedding uses insertion sort. -/
def collectTopCounts (f : Frame) (column : String) (bytesCol : String)
    (top : Nat) : Option (List GroupRow) :=
  if column ∈ f.cols then
    let hb := decide (bytesCol ∈ f.cols)
    some ((List.insertionSort (topRel hb)
      ((dedupFirst (f.rows.map (fun r => cellAt r column))).map
        (topRowFor f column hb bytesCol))).take top)
  else none

/-- One aggregated row of collect_noise_candidates. -/
structure NoiseRow where
  key : Cell
  events : Nat
  share : ℚ
  display : String
deriving DecidableEq, Repr

/-- The sort order of collect_noise_candidates:
`sort(["share", "events"], descending=[True, True])`. -/
def noiseRel (a b : NoiseRow) : Prop :=
  b.share < a.share ∨ (a.share = b.share ∧ b.events ≤ a.events)

instance : DecidableRel noiseRel := fun a b => by
  unfold noiseRel; infer_instance

/-- The noise row built for key `k` over a table of `total` rows. -/
def noiseRowFor (f : Frame) (column : String) (total : Nat) (k : Cell) : NoiseRow :=
  { key := k, events := countKey f column k,
    share := (countKey f column k : ℚ) / (total : ℚ) * 100,
    display := displayCell k }

/-- collect_noise_candidates of cli.py.  Absent when the threshold is not
positive, the column is missing, the table is empty, or no group reaches the
cutoff `total_events * (threshold / 100)`; otherwise all qualifying groups,
sorted by share then events, both descending, with no truncation.  The
threshold is a rational standing for the Python float. -/
def collectNoiseCandidates (f : Frame) (column : String) (threshold : ℚ) :
    Option (List NoiseRow) :=
  if threshold ≤ 0 then none
  else if column ∈ f.cols then
    let total := f.rows.length
    if total = 0 then none
    else
      let cutoff : ℚ := (total : ℚ) * (threshold / 100)
      let kept := ((dedupFirst (f.rows.map (fun r => cellAt r column))).map
        (noiseRowFor f column total)).filter
        (fun g => decide (cutoff ≤ (g.events : ℚ)))
      let sorted := List.insertionSort noiseRel kept
      if sorted = [] then none else some sorted
  else none

/-- One aggregated row of collect_trend. -/
structure TrendRow where
  bucket : Cell
  events : Nat
deriving DecidableEq, Repr

/-- The ascending sort on minute buckets. -/
def trendRel (a b : TrendRow) : Prop :=
  cellLe a.bucket b.bucket = true

instance : DecidableRel trendRel := fun a b => by
  unfold trendRel; infer_instance

/-- The rows with a non-null minute bucket
(`filter(pl.col("minute_bucket").is_not_null())`). -/
def nnRows (f : Frame) : List TblRow :=
  f.rows.filter (fun r => decide (cellAt r "minute_bucket" ≠ Cell.null))

/-- The full trend: every distinct non-null minute bucket with its event
count, sorted ascending by bucket. -/
def fullTrend (f : Frame) : List TrendRow :=
  List.insertionSort trendRel
    ((dedupFirst ((nnRows f).map (fun r => cellAt r "minute_bucket"))).map
      (fun k => ⟨k, ((nnRows f).filter
        (fun r => decide (cellAt r "minute_bucket" = k))).length⟩))

/-- collect_trend of cli.py: absent when the minute_bucket column is missing
or no non-null bucket exists; otherwise the first `top` buckets of the full
ascending sequence. -/
def collectTrend (f : Frame) (top : Nat) : Option (List TrendRow) :=
  if "minute_bucket" ∈ f.cols then
    if fullTrend f = [] then none else some ((fullTrend f).take top)
  else none

theorem charListLe_trans (a b c : List Char) (h1 : charListLe a b = true)
    (h2 : charListLe b c = true) : charListLe a c = true := by
  induction a generalizing b c with
  | nil => simp [charListLe]
  | cons x as ih =>
    cases b with
    | nil => simp [charListLe] at h1
    | cons y bs =>
      cases c with
      | nil => simp [charListLe] at h2
      | cons z cs =>
        by_cases hxy : x = y
        · subst hxy
          by_cases hxz : x = z
          · subst hxz
            simp_all [charListLe]
            exact ih _ _ h1 h2
          · simp_all [charListLe]
        · by_cases hyz : y = z
          · subst hyz
            simp_all [charListLe]
          · simp_all [charListLe]
            have hxz : x < z := lt_trans h1 h2
            simp [ne_of_lt hxz, hxz]

theorem charListLe_total (a b : List Char) :
    charListLe a b = true ∨ charListLe b a = true := by
  induction a generalizing b with
  | nil => simp [charListLe]
  | cons x as ih =>
    cases b with
    | nil => simp [charListLe]
    | cons y bs =>
      by_cases hxy : x = y
      · subst hxy
        simpa [charListLe] using ih bs
      · rcases lt_or_gt_of_ne hxy with h | h
        · exact Or.inl (by simp [charListLe, hxy, h])
        · exact Or.inr (by simp [charListLe, Ne.symm hxy, h])

theorem charListLe_antisymm (a b : List Char) (h1 : charListLe a b = true)
    (h2 : charListLe b a = true) : a = b := by
  induction a generalizing b with
  | nil =>
    cases b with
    | nil => rfl
    | cons y bs => simp [charListLe] at h2
  | cons x as ih =>
    cases b with
    | nil => simp [charListLe] at h1
    | cons y bs =>
      by_cases hxy : x = y
      · subst hxy
        simp_all [charListLe]
        exact ih _ h1 h2
      · have hyx : y ≠ x := Ne.symm hxy
        simp_all [charListLe]
        exact absurd (lt_trans h1 h2) (lt_irrefl x)

theorem cellLe_trans (a b c : Cell) (h1 : cellLe a b = true) (h2 : cellLe b c = true) :
    cellLe a c = true := by
  cases a <;> cases b <;> cases c <;> simp_all [cellLe, strLe] <;>
    first | omega | exact charListLe_trans _ _ _ h1 h2

theorem cellLe_total (a b : Cell) : cellLe a b = true ∨ cellLe b a = true := by
  cases a <;> cases b <;> simp [cellLe, strLe] <;>
    first | omega | exact charListLe_total _ _

theorem cellLe_antisymm (a b : Cell) (h1 : cellLe a b = true) (h2 : cellLe b a = true) :
    a = b := by
  cases a <;> cases b <;> simp_all [cellLe, strLe] <;>
    first | omega | exact String.ext (charListLe_antisymm _ _ h1 h2)

instance (hb : Bool) : IsTrans GroupRow (topRel hb) where
  trans a b c h1 h2 := by
    rcases h1 with h1 | ⟨e1, h1⟩
    · rcases h2 with h2 | ⟨e2, h2⟩
      · exact Or.inl (by omega)
      · exact Or.inl (by omega)
    · rcases h2 with h2 | ⟨e2, h2⟩
      · exact Or.inl (by omega)
      · refine Or.inr ⟨by omega, ?_⟩
        rcases h1 with ⟨hbt, h1⟩ | ⟨hbf, h1⟩
        · rcases h2 with ⟨_, h2⟩ | ⟨hbf2, _⟩
          · refine Or.inl ⟨hbt, ?_⟩
            rcases h1 with h1 | ⟨be1, k1⟩
            · rcases h2 with h2 | ⟨be2, k2⟩
              · exact Or.inl (by omega)
              · exact Or.inl (by omega)
            · rcases h2 with h2 | ⟨be2, k2⟩
              · exact Or.inl (by omega)
              · exact Or.inr ⟨by omega, cellLe_trans _ _ _ k1 k2⟩
          · simp [hbt] at hbf2
        · rcases h2 with ⟨hbt2, _⟩ | ⟨_, h2⟩
          · simp [hbf] at hbt2
          · exact Or.inr ⟨hbf, cellLe_trans _ _ _ h1 h2⟩

instance (hb : Bool) : IsTotal GroupRow (topRel hb) where
  total a b := by
    rcases Nat.lt_trichotomy a.events b.events with he | he | he
    · exact Or.inr (Or.inl he)
    · cases hb with
      | false =>
        rcases cellLe_total a.key b.key with hk | hk
        · exact Or.inl (Or.inr ⟨he, Or.inr ⟨rfl, hk⟩⟩)
        · exact Or.inr (Or.inr ⟨he.symm, Or.inr ⟨rfl, hk⟩⟩)
      | true =>
        rcases Int.lt_trichotomy a.bytes b.bytes with hbyt | hbyt | hbyt
        · exact Or.inr (Or.inr ⟨he.symm, Or.inl ⟨rfl, Or.inl hbyt⟩⟩)
        · rcases cellLe_total a.key b.key with hk | hk
          · exact Or.inl (Or.inr ⟨he, Or.inl ⟨rfl, Or.inr ⟨hbyt, hk⟩⟩⟩)
          · exact Or.inr (Or.inr ⟨he.symm, Or.inl ⟨rfl, Or.inr ⟨hbyt.symm, hk⟩⟩⟩)
        · exact Or.inl (Or.inr ⟨he, Or.inl ⟨rfl, Or.inl hbyt⟩⟩)
    · exact Or.inl (Or.inl he)

instance : IsTrans NoiseRow noiseRel where
  trans a b c h1 h2 := by
    rcases h1 with h1 | ⟨e1, h1⟩
    · rcases h2 with h2 | ⟨e2, h2⟩
      · exact Or.inl (lt_trans h2 h1)
      · exact Or.inl (e2 ▸ h1)
    · rcases h2 with h2 | ⟨e2, h2⟩
      · exact Or.inl (e1 ▸ h2)
      · exact Or.inr ⟨e1.trans e2, le_trans h2 h1⟩

instance : IsTotal NoiseRow noiseRel where
  total a b := by
    rcases lt_trichotomy a.share b.share with h | h | h
    · exact Or.inr (Or.inl h)
    · rcases Nat.le_total b.events a.events with he | he
      · exact Or.inl (Or.inr ⟨h, he⟩)
      · exact Or.inr (Or.inr ⟨h.symm, he⟩)
    · exact Or.inl (Or.inl h)

instance : IsTrans TrendRow trendRel where
  trans a b c h1 h2 := cellLe_trans _ _ _ h1 h2

instance : IsTotal TrendRow trendRel where
  total a b := cellLe_total a.bucket b.bucket

theorem mem_dedupFirstAux [DecidableEq α] (a : α) (l : List α) :
    ∀ seen, a ∈ dedupFirstAux l seen ↔ a ∈ l ∧ a ∉ seen := by
  induction l with
  | nil => intro seen; simp [dedupFirstAux]
  | cons x xs ih =>
    intro seen
    by_cases hx : x ∈ seen
    · by_cases hax : a = x
      · subst hax
        simp [dedupFirstAux, hx, ih, hx]
      · simp [dedupFirstAux, hx, ih, hax]
    · by_cases hax : a = x
      · subst hax
        simp [dedupFirstAux, hx]
      · simp [dedupFirstAux, hx, ih, hax]

theorem mem_dedupFirst [DecidableEq α] (a : α) (l : List α) :
    a ∈ dedupFirst l ↔ a ∈ l := by
  simp [dedupFirst, mem_dedupFirstAux]

theorem nodup_dedupFirstAux [DecidableEq α] (l : List α) :
    ∀ seen, (dedupFirstAux l seen).Nodup := by
  induction l with
  | nil => intro seen; simp [dedupFirstAux]
  | cons x xs ih =>
    intro seen
    by_cases hx : x ∈ seen
    · simpa [dedupFirstAux, hx] using ih seen
    · simp [dedupFirstAux, hx]
      refine ⟨?_, ih _⟩
      intro hmem
      rw [mem_dedupFirstAux] at hmem
      exact hmem.2 (List.mem_cons_self _ _)

theorem nodup_dedupFirst [DecidableEq α] (l : List α) : (dedupFirst l).Nodup :=
  nodup_dedupFirstAux l []

theorem statsInv_noteSuccess (s : ParseStats) (h : statsInv s) :
    statsInv s.noteSuccess := by
  unfold statsInv ParseStats.noteSuccess sumRejected at *
  simp
  omega

theorem statsInv_noteFailure (s : ParseStats) (r : String) (h : statsInv s) :
    statsInv (s.noteFailure r) := by
  unfold statsInv ParseStats.noteFailure sumRejected at *
  simp [bumpReason_sum]
  omega

theorem statsInv_runNoCb (step : StepFn) (lines : List String) (s : ParseStats)
    (h : statsInv s) : statsInv (runNoCb step lines s).stats := by
  induction lines generalizing s with
  | nil => simpa [runNoCb]
  | cons line rest ih =>
    unfold runNoCb
    cases hstep : step line with
    | error e => simpa
    | ok o =>
      cases o with
      | record r => exact ih _ (statsInv_noteSuccess s h)
      | reject reason => exact ih _ (statsInv_noteFailure s reason h)

/-- C1: a fresh ParseStats satisfies `total_lines = parsed + Σ rejected`, each
of note_success and note_failure preserves the invariant, and consequently the
stats of every parse run of any of the four vendor parsers over any input
satisfy it at every point. -/
theorem c1_parse_stats_invariant :
    statsInv ParseStats.start ∧
    (∀ s : ParseStats, statsInv s → statsInv s.noteSuccess) ∧
    (∀ (s : ParseStats) (r : String), statsInv s → statsInv (s.noteFailure r)) ∧
    (∀ step ∈ parserSteps, ∀ lines : List String,
      statsInv (runNoCb step lines ParseStats.start).stats) := by
  refine ⟨by simp [statsInv, ParseStats.start, sumRejected], statsInv_noteSuccess,
    statsInv_noteFailure, ?_⟩
  intro step _ lines
  exact statsInv_runNoCb step lines ParseStats.start
    (by simp [statsInv, ParseStats.start, sumRejected])

/-- Witness for C1 at concrete inputs: one success and one failure applied to
the fresh stats keep the invariant, and a concrete Meraki run satisfies it. -/
theorem c1_parse_stats_invariant_witness :
    statsInv ((ParseStats.start.noteFailure "empty").noteSuccess) ∧
    statsInv (runNoCb merakiStep ["\n", "bad\n"] ParseStats.start).stats := by
  constructor
  · exact c1_parse_stats_invariant.2.1 _
      (c1_parse_stats_invariant.2.2.1 ParseStats.start "empty"
        c1_parse_stats_invariant.1)
  · exact c1_parse_stats_invariant.2.2.2 merakiStep (by simp [parserSteps]) ["\n", "bad\n"]

theorem collectTopCounts_some {f : Frame} {c bc : String} {n : Nat}
    {rows : List GroupRow} (h : collectTopCounts f c bc n = some rows) :
    c ∈ f.cols ∧
    rows = (List.insertionSort (topRel (decide (bc ∈ f.cols)))
      ((dedupFirst (f.rows.map (fun r => cellAt r c))).map
        (topRowFor f c (decide (bc ∈ f.cols)) bc))).take n := by
  by_cases hc : c ∈ f.cols
  · refine ⟨hc, ?_⟩
    unfold collectTopCounts at h
    simp only [if_pos hc, Option.some_inj] at h
    exact h.symm
  · unfold collectTopCounts at h
    simp [hc] at h

theorem collectTopCounts_mem {f : Frame} {c bc : String} {n : Nat}
    {rows : List GroupRow} (h : collectTopCounts f c bc n = some rows)
    {g : GroupRow} (hg : g ∈ rows) :
    ∃ k, k ∈ f.rows.map (fun r => cellAt r c) ∧
      g = topRowFor f c (decide (bc ∈ f.cols)) bc k := by
  obtain ⟨hc, hrows⟩ := collectTopCounts_some h
  subst hrows
  have h1 := List.take_subset _ _ hg
  rw [(List.perm_insertionSort _ _).mem_iff] at h1
  obtain ⟨k, hk, hgk⟩ := List.mem_map.1 h1
  exact ⟨k, (mem_dedupFirst _ _).1 hk, hgk.symm⟩

theorem topRel_events {hb : Bool} {a b : GroupRow} (h : topRel hb a b) :
    b.events ≤ a.events := by
  rcases h with h | ⟨h, _⟩
  · omega
  · omega

/-- The scenario table of the spec: 100 `allow` rows, 40 `deny`, 40 `reset`
in a one-column frame with no bytes column. -/
def scenarioFrame : Frame :=
  { cols := ["action"],
    rows := List.replicate 100 [("action", Cell.str "allow")] ++
            List.replicate 40 [("action", Cell.str "deny")] ++
            List.replicate 40 [("action", Cell.str "reset")] }

set_option maxRecDepth 40000 in
/-- C2: whenever collect_top_counts returns a section, it has at most `top`
rows, is sorted by event count descending, then byte sum descending (when the
bytes column is present), then group key ascending; event counts are
non-increasing across the rows; and no excluded group's event count exceeds
the last included row's.  On the scenario table with counts
allow:100, deny:40, reset:40 and limit 2, the result is allow then deny. -/
theorem c2_top_groups_order :
    (∀ (f : Frame) (c bc : String) (n : Nat) (rows : List GroupRow),
      collectTopCounts f c bc n = some rows →
        rows.length ≤ n ∧
        rows.Pairwise (topRel (decide (bc ∈ f.cols))) ∧
        rows.Pairwise (fun a b => b.events ≤ a.events) ∧
        (∀ k, k ∈ f.rows.map (fun r => cellAt r c) →
          k ∉ rows.map GroupRow.key →
          ∀ hne : rows ≠ [], countKey f c k ≤ (rows.getLast hne).events)) ∧
    (collectTopCounts scenarioFrame "action" "bytes_total" 2).map
      (fun l => l.map GroupRow.display) = some ["allow", "deny"] := by
  constructor
  · intro f c bc n rows h
    obtain ⟨hc, hrows⟩ := collectTopCounts_some h
    subst hrows
    set hb := decide (bc ∈ f.cols) with hhb
    set S := List.insertionSort (topRel hb)
      ((dedupFirst (f.rows.map (fun r => cellAt r c))).map
        (topRowFor f c hb bc)) with hS
    have hsorted : S.Pairwise (topRel hb) := List.sorted_insertionSort _ _
    refine ⟨List.length_take_le _ _, hsorted.sublist (List.take_sublist _ _),
      (hsorted.sublist (List.take_sublist _ _)).imp topRel_events, ?_⟩
    intro k hkcells hkout hne
    have hkdedup : k ∈ dedupFirst (f.rows.map (fun r => cellAt r c)) :=
      (mem_dedupFirst _ _).2 hkcells
    have hkS : topRowFor f c hb bc k ∈ S := by
      rw [hS, (List.perm_insertionSort _ _).mem_iff]
      exact List.mem_map_of_mem _ hkdedup
    have hsplit : S.take n ++ S.drop n = S := List.take_append_drop n S
    have hpw : (S.take n ++ S.drop n).Pairwise (topRel hb) := by
      rw [hsplit]; exact hsorted
    rw [List.pairwise_append] at hpw
    have hnotin : topRowFor f c hb bc k ∉ S.take n := by
      intro hmem
      exact hkout (List.mem_map_of_mem GroupRow.key hmem)
    have hdrop : topRowFor f c hb bc k ∈ S.drop n := by
      rcases List.mem_append.1 (by rw [hsplit]; exact hkS) with hmem | hmem
      · exact absurd hmem hnotin
      · exact hmem
    have hlast : (S.take n).getLast hne ∈ S.take n := List.getLast_mem hne
    exact topRel_events (hpw.2.2 _ hlast _ hdrop)
  · decide

/-- The rows collect_top_counts returns on the scenario table with limit 2. -/
def scenarioTopRows : List GroupRow :=
  [⟨Cell.str "allow", 100, 0, "allow"⟩, ⟨Cell.str "deny", 40, 0, "deny"⟩]

set_option maxRecDepth 40000 in
/-- Witness for C2: the theorem applied to the concrete scenario table. -/
theorem c2_top_groups_order_witness :
    collectTopCounts scenarioFrame "action" "bytes_total" 2 = some scenarioTopRows ∧
    scenarioTopRows.length ≤ 2 ∧
    scenarioTopRows.Pairwise (fun a b => b.events ≤ a.events) := by
  have heq : collectTopCounts scenarioFrame "action" "bytes_total" 2 =
      some scenarioTopRows := by decide
  have h := c2_top_groups_order.1 scenarioFrame "action" "bytes_total" 2
    scenarioTopRows heq
  exact ⟨heq, h.1, h.2.2.1⟩

theorem collectNoiseCandidates_some {f : Frame} {c : String} {t : ℚ}
    {rows : List NoiseRow} (h : collectNoiseCandidates f c t = some rows) :
    ¬t ≤ 0 ∧ c ∈ f.cols ∧ f.rows.length ≠ 0 ∧
    rows = List.insertionSort noiseRel
      (((dedupFirst (f.rows.map (fun r => cellAt r c))).map
        (noiseRowFor f c f.rows.length)).filter
        (fun g => decide ((f.rows.length : ℚ) * (t / 100) ≤ (g.events : ℚ)))) := by
  unfold collectNoiseCandidates at h
  by_cases h1 : t ≤ 0
  · simp [h1] at h
  · by_cases h2 : c ∈ f.cols
    · by_cases h3 : f.rows.length = 0
      · simp [h1, h2, h3] at h
      · simp only [if_neg h1, if_pos h2, if_neg h3] at h
        by_cases h4 : List.insertionSort noiseRel
            (((dedupFirst (f.rows.map (fun r => cellAt r c))).map
              (noiseRowFor f c f.rows.length)).filter
              (fun g => decide ((f.rows.length : ℚ) * (t / 100) ≤ (g.events : ℚ)))) = []
        · simp [h4] at h
        · simp only [if_neg h4, Option.some_inj] at h
          exact ⟨h1, h2, h3, h.symm⟩
    · simp [h1, h2] at h

theorem collectNoiseCandidates_mem {f : Frame} {c : String} {t : ℚ}
    {rows : List NoiseRow} (h : collectNoiseCandidates f c t = some rows)
    {g : NoiseRow} (hg : g ∈ rows) :
    ∃ k, k ∈ f.rows.map (fun r => cellAt r c) ∧
      g = noiseRowFor f c f.rows.length k ∧
      (f.rows.length : ℚ) * (t / 100) ≤ (g.events : ℚ) := by
  obtain ⟨_, _, _, hrows⟩ := collectNoiseCandidates_some h
  subst hrows
  rw [(List.perm_insertionSort _ _).mem_iff] at hg
  rw [List.mem_filter] at hg
  obtain ⟨hmem, hcut⟩ := hg
  obtain ⟨k, hk, hgk⟩ := List.mem_map.1 hmem
  exact ⟨k, (mem_dedupFirst _ _).1 hk, hgk.symm, by simpa using hcut⟩

/-- C3: every group collect_noise_candidates returns has share
(count / total · 100) at least the threshold; the result is sorted by share
descending then events descending and contains every qualifying group (no
size limit); and the result is absent when the threshold is not positive,
the column is missing, or the table is empty. -/
theorem c3_noise_candidates :
    (∀ (f : Frame) (c : String) (t : ℚ) (rows : List NoiseRow),
      collectNoiseCandidates f c t = some rows →
        (∀ r ∈ rows, t ≤ r.share) ∧
        rows.Pairwise noiseRel ∧
        (∀ k, k ∈ f.rows.map (fun r => cellAt r c) →
          (f.rows.length : ℚ) * (t / 100) ≤ (countKey f c k : ℚ) →
          ∃ r ∈ rows, r.key = k)) ∧
    (∀ (f : Frame) (c : String) (t : ℚ),
      t ≤ 0 ∨ c ∉ f.cols ∨ f.rows = [] → collectNoiseCandidates f c t = none) := by
  constructor
  · intro f c t rows h
    obtain ⟨ht, hc, htot, hrows⟩ := collectNoiseCandidates_some h
    have htpos : (0 : ℚ) < (f.rows.length : ℚ) := by
      exact_mod_cast Nat.pos_of_ne_zero htot
    refine ⟨?_, ?_, ?_⟩
    · intro r hr
      obtain ⟨k, _, hgk, hcut⟩ := collectNoiseCandidates_mem h hr
      have hshare : r.share = (r.events : ℚ) / (f.rows.length : ℚ) * 100 := by
        rw [hgk]; rfl
      rw [hshare, div_mul_eq_mul_div]
      rw [le_div_iff htpos]
      calc t * (f.rows.length : ℚ)
          = (f.rows.length : ℚ) * (t / 100) * 100 := by ring
        _ ≤ (r.events : ℚ) * 100 := by
            exact mul_le_mul_of_nonneg_right hcut (by norm_num)
    · rw [hrows]
      exact List.sorted_insertionSort _ _
    · intro k hk hcut
      refine ⟨noiseRowFor f c f.rows.length k, ?_, rfl⟩
      rw [hrows, (List.perm_insertionSort _ _).mem_iff, List.mem_filter]
      refine ⟨List.mem_map_of_mem _ ((mem_dedupFirst _ _).2 hk), ?_⟩
      simpa using hcut
  · intro f c t habs
    rcases habs with ht | hc | hrows
    · simp [collectNoiseCandidates, ht]
    · by_cases ht : t ≤ 0
      · simp [collectNoiseCandidates, ht]
      · simp [collectNoiseCandidates, ht, hc]
    · by_cases ht : t ≤ 0
      · simp [collectNoiseCandidates, ht]
      · by_cases hc : c ∈ f.cols
        · simp [collectNoiseCandidates, ht, hc, hrows]
        · simp [collectNoiseCandidates, ht, hc]

/-- A two-row single-group table for the noise witness. -/
def noiseWitnessFrame : Frame :=
  { cols := ["k"], rows := [[("k", Cell.str "a")], [("k", Cell.str "a")]] }

set_option maxRecDepth 100000 in
/-- Witness for C3: on a two-row table whose single group holds 100% of the
events, threshold 50 keeps the group and its share is at least 50; and all
three absent conditions produce `none` at concrete inputs. -/
theorem c3_noise_candidates_witness :
    collectNoiseCandidates noiseWitnessFrame "k" 50 =
      some [⟨Cell.str "a", 2, 100, "a"⟩] ∧
    (50 : ℚ) ≤ (⟨Cell.str "a", 2, 100, "a"⟩ : NoiseRow).share ∧
    collectNoiseCandidates noiseWitnessFrame "k" 0 = none ∧
    collectNoiseCandidates noiseWitnessFrame "absent" 50 = none ∧
    collectNoiseCandidates ⟨["k"], []⟩ "k" 50 = none := by
  have heq : collectNoiseCandidates noiseWitnessFrame "k" 50 =
      some [⟨Cell.str "a", 2, 100, "a"⟩] := by with_unfolding_all decide
  refine ⟨heq, ?_, ?_, ?_, ?_⟩
  · exact (c3_noise_candidates.1 noiseWitnessFrame "k" 50 _ heq).1 _
      (List.mem_singleton.2 rfl)
  · exact c3_noise_candidates.2 noiseWitnessFrame "k" 0 (Or.inl le_rfl)
  · exact c3_noise_candidates.2 noiseWitnessFrame "absent" 50
      (Or.inr (Or.inl (by decide)))
  · exact c3_noise_candidates.2 ⟨["k"], []⟩ "k" 50 (Or.inr (Or.inr rfl))

theorem dedupFirst_eq_nil [DecidableEq α] (l : List α) :
    dedupFirst l = [] ↔ l = [] := by
  cases l with
  | nil => simp [dedupFirst, dedupFirstAux]
  | cons x xs => simp [dedupFirst, dedupFirstAux]

theorem fullTrend_eq_nil (f : Frame) : fullTrend f = [] ↔ nnRows f = [] := by
  unfold fullTrend
  constructor
  · intro h
    have hlen := congrArg List.length h
    rw [(List.perm_insertionSort _ _).length_eq] at hlen
    simp only [List.length_map, List.length_nil] at hlen
    have hd : dedupFirst ((nnRows f).map (fun r => cellAt r "minute_bucket")) = [] :=
      List.eq_nil_of_length_eq_zero hlen
    rw [dedupFirst_eq_nil] at hd
    exact List.map_eq_nil.1 hd
  · intro h
    simp [h, dedupFirst, dedupFirstAux]

theorem collectTrend_some {f : Frame} {top : Nat} {rows : List TrendRow}
    (h : collectTrend f top = some rows) :
    "minute_bucket" ∈ f.cols ∧ fullTrend f ≠ [] ∧ rows = (fullTrend f).take top := by
  unfold collectTrend at h
  by_cases h1 : "minute_bucket" ∈ f.cols
  · by_cases h2 : fullTrend f = []
    · simp [h1, h2] at h
    · simp only [if_pos h1, if_neg h2, Option.some_inj] at h
      exact ⟨h1, h2, h.symm⟩
  · simp [h1] at h

/-- The buckets of the full trend are pairwise distinct. -/
theorem fullTrend_bucket_nodup (f : Frame) :
    (fullTrend f).Pairwise (fun a b => a.bucket ≠ b.bucket) := by
  unfold fullTrend
  rw [(List.perm_insertionSort _ _).pairwise_iff (fun h => Ne.symm h)]
  rw [List.pairwise_map]
  exact nodup_dedupFirst _

/-- C4: a present trend section is exactly the first `top` elements of the
full ascending bucket sequence: at most `top` rows, buckets strictly
increasing, a prefix of the full sorted-ascending sequence; the section is
absent when the minute_bucket column is missing or no non-null bucket exists,
and present whenever the column exists and some non-null bucket does. -/
theorem c4_trend_earliest :
    (∀ (f : Frame) (top : Nat) (rows : List TrendRow),
      collectTrend f top = some rows →
        rows = (fullTrend f).take top ∧
        rows.length ≤ top ∧
        (fullTrend f).Pairwise trendRel ∧
        rows.Pairwise (fun a b => cellLe a.bucket b.bucket = true ∧ a.bucket ≠ b.bucket)) ∧
    (∀ (f : Frame) (top : Nat),
      "minute_bucket" ∉ f.cols ∨ nnRows f = [] → collectTrend f top = none) ∧
    (∀ (f : Frame) (top : Nat),
      "minute_bucket" ∈ f.cols → nnRows f ≠ [] →
        ∃ rows, collectTrend f top = some rows) := by
  refine ⟨?_, ?_, ?_⟩
  · intro f top rows h
    obtain ⟨hc, hne, hrows⟩ := collectTrend_some h
    have hsorted : (fullTrend f).Pairwise trendRel := by
      unfold fullTrend
      exact List.sorted_insertionSort _ _
    have hstrict : (fullTrend f).Pairwise
        (fun a b => cellLe a.bucket b.bucket = true ∧ a.bucket ≠ b.bucket) :=
      hsorted.and (fullTrend_bucket_nodup f)
    refine ⟨hrows, ?_, hsorted, ?_⟩
    · rw [hrows]; exact List.length_take_le _ _
    · rw [hrows]; exact hstrict.sublist (List.take_sublist _ _)
  · intro f top habs
    rcases habs with hc | hnn
    · simp [collectTrend, hc]
    · by_cases hc : "minute_bucket" ∈ f.cols
      · simp [collectTrend, hc, (fullTrend_eq_nil f).2 hnn]
      · simp [collectTrend, hc]
  · intro f top hc hnn
    have hne : fullTrend f ≠ [] := fun h => hnn ((fullTrend_eq_nil f).1 h)
    exact ⟨(fullTrend f).take top, by simp [collectTrend, hc, hne]⟩

/-- A four-row table for the trend witness: buckets 5, 3, null, 5. -/
def trendWitnessFrame : Frame :=
  { cols := ["minute_bucket"],
    rows := [[("minute_bucket", Cell.int 5)], [("minute_bucket", Cell.int 3)],
             [("minute_bucket", Cell.null)], [("minute_bucket", Cell.int 5)]] }

/-- Witness for C4: on the concrete table the trend returns the two earliest
buckets in strictly ascending order, and they form the length-2 prefix of the
full sequence. -/
theorem c4_trend_earliest_witness :
    collectTrend trendWitnessFrame 2 = some [⟨Cell.int 3, 1⟩, ⟨Cell.int 5, 2⟩] ∧
    [(⟨Cell.int 3, 1⟩ : TrendRow), ⟨Cell.int 5, 2⟩] = (fullTrend trendWitnessFrame).take 2 ∧
    collectTrend ⟨["minute_bucket"], [[("minute_bucket", Cell.null)]]⟩ 2 = none := by
  have heq : collectTrend trendWitnessFrame 2 =
      some [⟨Cell.int 3, 1⟩, ⟨Cell.int 5, 2⟩] := by decide
  refine ⟨heq, (c4_trend_earliest.1 trendWitnessFrame 2 _ heq).1, ?_⟩
  exact c4_trend_earliest.2.1 ⟨["minute_bucket"], [[("minute_bucket", Cell.null)]]⟩ 2
    (Or.inr (by decide))

/-- Counterexample to C8 as stated: on an empty table that still declares the
grouping column, collect_top_counts returns a present section with zero rows,
not an absent result. -/
theorem c8_top_groups_absent_counterexample :
    (Frame.mk ["action"] []).rows = [] ∧
    "action" ∈ (Frame.mk ["action"] []).cols ∧
    collectTopCounts ⟨["action"], []⟩ "action" "bytes_total" 5 = some [] ∧
    collectTopCounts ⟨["action"], []⟩ "action" "bytes_total" 5 ≠ none := by
  refine ⟨rfl, by decide, by decide, by decide⟩

/-- C8 amended: collect_top_counts is absent exactly when the grouping column
is missing from the schema — which covers every empty table the parsers
produce, since their empty frames carry no columns at all — and never an
error; an empty table that does declare the column yields a present section
with zero rows. -/
theorem c8_top_groups_absent_amended :
    (∀ (f : Frame) (c bc : String) (n : Nat),
      c ∉ f.cols → collectTopCounts f c bc n = none) ∧
    (∀ (f : Frame) (c bc : String) (n : Nat),
      c ∈ f.cols → f.rows = [] → collectTopCounts f c bc n = some []) := by
  constructor
  · intro f c bc n hc
    simp [collectTopCounts, hc]
  · intro f c bc n hc hrows
    simp [collectTopCounts, hc, hrows, dedupFirst, dedupFirstAux]

/-- Witness for the amended C8 at concrete inputs: a no-column empty frame is
absent, and an empty frame declaring the column is a present empty section. -/
theorem c8_top_groups_absent_amended_witness :
    collectTopCounts ⟨[], []⟩ "action" "bytes_total" 5 = none ∧
    collectTopCounts ⟨["action"], []⟩ "action" "bytes_total" 5 = some [] := by
  constructor
  · exact c8_top_groups_absent_amended.1 ⟨[], []⟩ "action" "bytes_total" 5 (by decide)
  · exact c8_top_groups_absent_amended.2 ⟨["action"], []⟩ "action" "bytes_total" 5
      (by decide) rfl

/-- C10: the rendered group-key cell is `str(value or "<missing>")`, so the
sentinel appears for the null key and for any falsy key such as the empty
string or the integer zero; yet such groups are aggregated as ordinary
distinct groups — every returned row's event count is the exact row count of
its own key's group, the null group included.  On a concrete table with two
null rows and one empty-string row, both groups appear separately, each
rendered `<missing>`. -/
theorem c10_missing_sentinel :
    displayCell Cell.null = "<missing>" ∧
    displayCell (Cell.str "") = "<missing>" ∧
    displayCell (Cell.int 0) = "<missing>" ∧
    (∀ (f : Frame) (c bc : String) (n : Nat) (rows : List GroupRow),
      collectTopCounts f c bc n = some rows →
        ∀ r ∈ rows, r.display = displayCell r.key ∧ r.events = countKey f c r.key) ∧
    (∀ (f : Frame) (c : String) (t : ℚ) (rows : List NoiseRow),
      collectNoiseCandidates f c t = some rows →
        ∀ r ∈ rows, r.display = displayCell r.key ∧ r.events = countKey f c r.key) ∧
    collectTopCounts ⟨["k"], [[("k", Cell.null)], [("k", Cell.str "")], [("k", Cell.null)]]⟩
        "k" "bytes_total" 5 =
      some [⟨Cell.null, 2, 0, "<missing>"⟩, ⟨Cell.str "", 1, 0, "<missing>"⟩] := by
  refine ⟨rfl, rfl, rfl, ?_, ?_, by decide⟩
  · intro f c bc n rows h r hr
    obtain ⟨k, _, hrk⟩ := collectTopCounts_mem h hr
    subst hrk
    exact ⟨rfl, rfl⟩
  · intro f c t rows h r hr
    obtain ⟨k, _, hrk, _⟩ := collectNoiseCandidates_mem h hr
    subst hrk
    exact ⟨rfl, rfl⟩

/-- Witness for C10 on the concrete mixed table: both the null group and the
empty-string group are returned as distinct rows, displayed `<missing>`, with
their own counts. -/
theorem c10_missing_sentinel_witness :
    collectTopCounts ⟨["k"], [[("k", Cell.null)], [("k", Cell.str "")], [("k", Cell.null)]]⟩
        "k" "bytes_total" 5 =
      some [⟨Cell.null, 2, 0, "<missing>"⟩, ⟨Cell.str "", 1, 0, "<missing>"⟩] ∧
    (⟨Cell.null, 2, 0, "<missing>"⟩ : GroupRow).display = displayCell Cell.null ∧
    (⟨Cell.null, 2, 0, "<missing>"⟩ : GroupRow).events =
      countKey ⟨["k"], [[("k", Cell.null)], [("k", Cell.str "")], [("k", Cell.null)]]⟩
        "k" Cell.null := by
  have heq : collectTopCounts
      ⟨["k"], [[("k", Cell.null)], [("k", Cell.str "")], [("k", Cell.null)]]⟩
      "k" "bytes_total" 5 =
      some [⟨Cell.null, 2, 0, "<missing>"⟩, ⟨Cell.str "", 1, 0, "<missing>"⟩] := by decide
  have h := c10_missing_sentinel.2.2.2.1 _ "k" "bytes_total" 5 _ heq
    ⟨Cell.null, 2, 0, "<missing>"⟩ (by simp)
  exact ⟨heq, h.1, h.2⟩

/-- A syntactically valid CEF line whose severity field is not an integer
literal. -/
def cefBadSeverityLine : String :=
  "Nov  5 00:00:04 10.0.0.1 CEF:0|Ubiquiti|UniFi|1.0|evt|Alert|high|foo=bar\n"

/-- C5: the dichotomy "every line yields exactly one outcome and parse never
raises" fails for the UniFi parser: a CEF line with non-numeric severity
reaches `int(cef_match["severity"])` and raises ValueError.  The other three
parsers are total: every line yields exactly one record or exactly one
rejection, with the corresponding single stats update. -/
theorem c5_parse_single_outcome :
    unifiLine cefBadSeverityLine = .error .valueError ∧
    (∀ raw : String, (∃ r, merakiLine raw = .record r) ∨
      (∃ rsn, merakiLine raw = .reject rsn)) ∧
    (∀ raw : String, (∃ r, watchguardLine raw = .record r) ∨
      (∃ rsn, watchguardLine raw = .reject rsn)) ∧
    (∀ raw : String, (∃ r, paloLine raw = .record r) ∨
      (∃ rsn, paloLine raw = .reject rsn)) ∧
    (∀ (s : ParseStats) (r : Rec),
      applyOutcome s (.record r) = (s.noteSuccess, some r)) ∧
    (∀ (s : ParseStats) (rsn : String),
      applyOutcome s (.reject rsn) = (s.noteFailure rsn, none)) := by
  refine ⟨by decide, ?_, ?_, ?_, fun s r => rfl, fun s rsn => rfl⟩
  · intro raw
    cases h : merakiLine raw with
    | record r => exact Or.inl ⟨r, rfl⟩
    | reject rsn => exact Or.inr ⟨rsn, rfl⟩
  · intro raw
    cases h : watchguardLine raw with
    | record r => exact Or.inl ⟨r, rfl⟩
    | reject rsn => exact Or.inr ⟨rsn, rfl⟩
  · intro raw
    cases h : paloLine raw with
    | record r => exact Or.inl ⟨r, rfl⟩
    | reject rsn => exact Or.inr ⟨rsn, rfl⟩

/-- The epoch-timestamp scenario line of the spec. -/
def merakiScenarioLine : String :=
  "Nov  5 00:00:04 90.102.85.18 1 1762300804.143040390 ROUTER ip_flow_end src=10.10.0.102 dst=35.153.85.208 protocol=6"

/-- The record the Meraki parser produces for the scenario line. -/
def merakiScenarioRec : Rec :=
  [("syslog_month", some "Nov"),
   ("syslog_day", some "5"),
   ("syslog_time", some "00:00:04"),
   ("host_ip", some "90.102.85.18"),
   ("priority", some "1"),
   ("epoch_timestamp", some "1762300804.143040390"),
   ("device_type", some "ROUTER"),
   ("event_type", some "ip_flow_end"),
   ("message", some "src=10.10.0.102 dst=35.153.85.208 protocol=6"),
   ("log_level", some "info"),
   ("category", some "network-flow"),
   ("src", some "10.10.0.102"),
   ("dst", some "35.153.85.208"),
   ("protocol", some "6"),
   ("sport", none),
   ("dport", none),
   ("mac", none),
   ("translated_src_ip", none),
   ("translated_port", none),
   ("pattern", none)]

/-- Python `record.get(k)` on a normalized record (`some v` when present). -/
def recGet (r : Rec) (k : String) : Option (Option String) :=
  (r.find? (fun p => p.1 = k)).map (fun p => p.2)

set_option maxRecDepth 40000 in
/-- C6: the Meraki parser turns the scenario line into exactly this one
record, whose event_type, category, log_level, src, dst and protocol fields
are as the spec states; applying the outcome to any stats increments parsed
and total_lines by one and leaves every rejection counter unchanged. -/
theorem c6_meraki_scenario :
    merakiLine merakiScenarioLine = .record merakiScenarioRec ∧
    recGet merakiScenarioRec "event_type" = some (some "ip_flow_end") ∧
    recGet merakiScenarioRec "category" = some (some "network-flow") ∧
    recGet merakiScenarioRec "log_level" = some (some "info") ∧
    recGet merakiScenarioRec "src" = some (some "10.10.0.102") ∧
    recGet merakiScenarioRec "dst" = some (some "35.153.85.208") ∧
    recGet merakiScenarioRec "protocol" = some (some "6") ∧
    (∀ s : ParseStats,
      (applyOutcome s (merakiLine merakiScenarioLine)).1.parsed = s.parsed + 1 ∧
      (applyOutcome s (merakiLine merakiScenarioLine)).1.total_lines = s.total_lines + 1 ∧
      (applyOutcome s (merakiLine merakiScenarioLine)).1.rejected = s.rejected) := by
  have h : merakiLine merakiScenarioLine = .record merakiScenarioRec := by decide
  refine ⟨h, by decide, by decide, by decide, by decide, by decide, by decide, ?_⟩
  intro s
  rw [h]
  exact ⟨rfl, rfl, rfl⟩

theorem runWithCb_eq_runNoCb (step : StepFn) (lines : List String) (s : ParseStats) :
    (runWithCb step lines s).records = (runNoCb step lines s).records ∧
    (runWithCb step lines s).stats = (runNoCb step lines s).stats ∧
    (runWithCb step lines s).exn = (runNoCb step lines s).exn := by
  induction lines generalizing s with
  | nil => exact ⟨rfl, rfl, rfl⟩
  | cons line rest ih =>
    cases hstep : step line with
    | error e => simp [runNoCb, runWithCb, hstep]
    | ok o =>
      cases o with
      | record r =>
        have h := ih (applyOutcome s (.record r)).1
        simp [runNoCb, runWithCb, hstep, applyOutcome] at h ⊢
        exact ⟨h.1, h.2⟩
      | reject rsn =>
        have h := ih (applyOutcome s (.reject rsn)).1
        simp [runNoCb, runWithCb, hstep, applyOutcome] at h ⊢
        exact ⟨h.1, h.2⟩

theorem runWithCb_reported (step : StepFn) (lines : List String) (s : ParseStats)
    (h : (runWithCb step lines s).exn = none) :
    (runWithCb step lines s).reported = lines.map String.length := by
  induction lines generalizing s with
  | nil => rfl
  | cons line rest ih =>
    cases hstep : step line with
    | error e => simp [runWithCb, hstep] at h
    | ok o =>
      cases o with
      | record r =>
        simp [runWithCb, hstep, applyOutcome] at h ⊢
        exact ih _ h
      | reject rsn =>
        simp [runWithCb, hstep, applyOutcome] at h ⊢
        exact ih _ h

/-- Counterexample to C7 as stated: the callback receives `len(raw_line)`,
the character count of the decoded line, not its byte length.  For the
two-character raw line `"é\n"` (three UTF-8 bytes) the callback is invoked
with 2, not 3. -/
theorem c7_progress_callback_counterexample :
    (runWithCb merakiStep ["é\n"] ParseStats.start).reported = [2] ∧
    ("é\n" : String).utf8ByteSize = 3 ∧
    (runWithCb merakiStep ["é\n"] ParseStats.start).reported ≠
      [("é\n" : String).utf8ByteSize] := by
  exact ⟨by decide, by decide, by decide⟩

/-- C7 amended: for each of the four vendor parsers, the progress callback is
invoked exactly once per raw line, before the line is parsed, with the line's
character count (which equals its byte length only for single-byte
characters); and the records, stats and termination of the run are identical
with and without the callback. -/
theorem c7_progress_callback_amended :
    ∀ step ∈ parserSteps, ∀ (lines : List String) (s : ParseStats),
      (runWithCb step lines s).records = (runNoCb step lines s).records ∧
      (runWithCb step lines s).stats = (runNoCb step lines s).stats ∧
      (runWithCb step lines s).exn = (runNoCb step lines s).exn ∧
      ((runWithCb step lines s).exn = none →
        (runWithCb step lines s).reported = lines.map String.length) := by
  intro step _ lines s
  obtain ⟨h1, h2, h3⟩ := runWithCb_eq_runNoCb step lines s
  exact ⟨h1, h2, h3, runWithCb_reported step lines s⟩

/-- Witness for the amended C7 at a concrete input: with the Meraki step and
one raw line, both runs agree and the callback saw the character count once. -/
theorem c7_progress_callback_amended_witness :
    (runWithCb merakiStep ["x\n"] ParseStats.start).records =
      (runNoCb merakiStep ["x\n"] ParseStats.start).records ∧
    (runWithCb merakiStep ["x\n"] ParseStats.start).stats =
      (runNoCb merakiStep ["x\n"] ParseStats.start).stats ∧
    (runWithCb merakiStep ["x\n"] ParseStats.start).reported =
      (["x\n"] : List String).map String.length := by
  have h := c7_progress_callback_amended merakiStep (by simp [parserSteps])
    ["x\n"] ParseStats.start
  exact ⟨h.1, h.2.1, h.2.2.2 (by decide)⟩

theorem matchSyslogHead_ws {l : List Char} (hne : l ≠ [])
    (hws : ∀ c ∈ l, c = ' ' ∨ c = '\t' ∨ c = '\r') : matchSyslogHead l = none := by
  cases l with
  | nil => exact absurd rfl hne
  | cons c t =>
    have hcw : isWordChar c = false := by
      rcases hws c (List.mem_cons_self _ _) with h | h | h <;> subst h <;> decide
    cases t with
    | nil => rfl
    | cons c2 t2 =>
      cases t2 with
      | nil => rfl
      | cons c3 t3 =>
        simp [matchSyslogHead, hcw, guard]

theorem merakiBody_empty_iff (e : String) :
    merakiBody e = .reject "empty" ↔ e = "" := by
  constructor
  · intro h
    by_contra he
    unfold merakiBody at h
    rw [if_neg he] at h
    cases hm : merakiMatch e.data with
    | none =>
      rw [hm] at h
      exact absurd h (by decide)
    | some v =>
      rw [hm] at h
      exact Outcome.noConfusion h
  · intro h
    simp [merakiBody, h]

theorem watchguardBody_empty_iff (e : String) :
    watchguardBody e = .reject "empty" ↔ e = "" := by
  constructor
  · intro h
    by_contra he
    unfold watchguardBody at h
    rw [if_neg he] at h
    cases hm : watchguardMatch e.data with
    | none =>
      rw [hm] at h
      exact absurd h (by decide)
    | some v =>
      rw [hm] at h
      exact Outcome.noConfusion h
  · intro h
    simp [watchguardBody, h]

theorem paloBody_empty_iff (e : String) :
    paloBody e = .reject "empty" ↔ e = "" := by
  constructor
  · intro h
    by_contra he
    unfold paloBody at h
    rw [if_neg he] at h
    cases hm : matchSyslogHead e.data with
    | none =>
      rw [hm] at h
      exact absurd h (by decide)
    | some v =>
      obtain ⟨hd1, rest⟩ := v
      rw [hm] at h
      dsimp only at h
      cases hcsv : csvRow rest with
      | error msg =>
        rw [hcsv] at h
        dsimp only at h
        have hmsg := Outcome.reject.inj h
        have hlen := congrArg String.length hmsg
        rw [String.length_append] at hlen
        have h11 : ("csv-error: " : String).length = 11 := rfl
        have h5 : ("empty" : String).length = 5 := rfl
        rw [h11, h5] at hlen
        omega
      | ok fields =>
        rw [hcsv] at h
        exact Outcome.noConfusion h
  · intro h
    simp [paloBody, h]

theorem unifiBody_empty_iff (e : String) :
    unifiBody e = .ok (.reject "empty") ↔ e = "" := by
  constructor
  · intro h
    by_contra he
    unfold unifiBody at h
    rw [if_neg he] at h
    by_cases hj : startsJsonChar (e.data.dropWhile isPySpace) = true
    · rw [if_pos hj] at h
      exact absurd h (by decide)
    · rw [if_neg hj] at h
      cases hc : unifiCefMatch e.data with
      | some v =>
        obtain ⟨hd1, b⟩ := v
        rw [hc] at h
        dsimp only at h
        cases hi : pyInt b.severity with
        | none =>
          rw [hi] at h
          exact Except.noConfusion h
        | some sev =>
          rw [hi] at h
          dsimp only at h
          have := Except.ok.inj h
          exact Outcome.noConfusion this
      | none =>
        rw [hc] at h
        dsimp only at h
        cases hs : unifiSyslogMatch e.data with
        | none =>
          rw [hs] at h
          exact absurd h (by decide)
        | some v =>
          obtain ⟨hd1, b⟩ := v
          rw [hs] at h
          dsimp only at h
          have := Except.ok.inj h
          exact Outcome.noConfusion this
  · intro h
    simp [unifiBody, h]

theorem data_ne_nil_of_ne_empty {e : String} (hne : e ≠ "") : e.data ≠ [] :=
  fun hd => hne (String.ext (by rw [hd]))

theorem merakiBody_ws (e : String) (hne : e ≠ "")
    (hws : ∀ c ∈ e.data, c = ' ' ∨ c = '\t' ∨ c = '\r') :
    merakiBody e = .reject "format-mismatch" := by
  have hm : matchSyslogHead e.data = none :=
    matchSyslogHead_ws (data_ne_nil_of_ne_empty hne) hws
  have hmm : merakiMatch e.data = none := by
    unfold merakiMatch
    rw [hm]
    rfl
  unfold merakiBody
  rw [if_neg hne, hmm]

theorem watchguardBody_ws (e : String) (hne : e ≠ "")
    (hws : ∀ c ∈ e.data, c = ' ' ∨ c = '\t' ∨ c = '\r') :
    watchguardBody e = .reject "format-mismatch" := by
  have hm : matchSyslogHead e.data = none :=
    matchSyslogHead_ws (data_ne_nil_of_ne_empty hne) hws
  have hmm : watchguardMatch e.data = none := by
    unfold watchguardMatch
    rw [hm]
    rfl
  unfold watchguardBody
  rw [if_neg hne, hmm]

theorem paloBody_ws (e : String) (hne : e ≠ "")
    (hws : ∀ c ∈ e.data, c = ' ' ∨ c = '\t' ∨ c = '\r') :
    paloBody e = .reject "missing-prefix" := by
  have hm : matchSyslogHead e.data = none :=
    matchSyslogHead_ws (data_ne_nil_of_ne_empty hne) hws
  unfold paloBody
  rw [if_neg hne, hm]

theorem unifiBody_ws (e : String) (hne : e ≠ "")
    (hws : ∀ c ∈ e.data, c = ' ' ∨ c = '\t' ∨ c = '\r') :
    unifiBody e = .ok (.reject "format-mismatch") := by
  have hm : matchSyslogHead e.data = none :=
    matchSyslogHead_ws (data_ne_nil_of_ne_empty hne) hws
  have hdrop : e.data.dropWhile isPySpace = [] :=
    List.dropWhile_eq_nil_iff.2
      (fun c hc => by rcases hws c hc with h | h | h <;> subst h <;> decide)
  have hj : startsJsonChar (e.data.dropWhile isPySpace) = false := by
    rw [hdrop]; rfl
  have hcef : unifiCefMatch e.data = none := by
    unfold unifiCefMatch
    rw [hm]
    rfl
  have hsys : unifiSyslogMatch e.data = none := by
    unfold unifiSyslogMatch
    rw [hm]
    rfl
  unfold unifiBody
  rw [if_neg hne, hj, hcef, hsys]
  rfl

/-- C9: in all four parsers the rejection reason `empty` is tallied exactly
when the line is the empty string after stripping trailing newlines; a
nonempty line of nothing but spaces, tabs or carriage returns is instead
rejected by the grammar — `format-mismatch` for Meraki, UniFi and WatchGuard,
`missing-prefix` for the positional Palo Alto parser — and yields no record in
either case. -/
theorem c9_empty_versus_whitespace (raw : String) :
    (merakiStep raw = .ok (.reject "empty") ↔ pyRstripNl raw = "") ∧
    (unifiStepFn raw = .ok (.reject "empty") ↔ pyRstripNl raw = "") ∧
    (watchguardStep raw = .ok (.reject "empty") ↔ pyRstripNl raw = "") ∧
    (paloStep raw = .ok (.reject "empty") ↔ pyRstripNl raw = "") ∧
    (pyRstripNl raw ≠ "" →
      (∀ c ∈ (pyRstripNl raw).data, c = ' ' ∨ c = '\t' ∨ c = '\r') →
      merakiStep raw = .ok (.reject "format-mismatch") ∧
      unifiStepFn raw = .ok (.reject "format-mismatch") ∧
      watchguardStep raw = .ok (.reject "format-mismatch") ∧
      paloStep raw = .ok (.reject "missing-prefix")) := by
  refine ⟨?_, ?_, ?_, ?_, ?_⟩
  · simp only [merakiStep, merakiLine, Except.ok.injEq]
    exact merakiBody_empty_iff _
  · simp only [unifiStepFn, unifiLine]
    exact unifiBody_empty_iff _
  · simp only [watchguardStep, watchguardLine, Except.ok.injEq]
    exact watchguardBody_empty_iff _
  · simp only [paloStep, paloLine, Except.ok.injEq]
    exact paloBody_empty_iff _
  · intro hne hws
    refine ⟨?_, ?_, ?_, ?_⟩
    · simp only [merakiStep, merakiLine]
      rw [merakiBody_ws _ hne hws]
    · simp only [unifiStepFn, unifiLine]
      rw [unifiBody_ws _ hne hws]
    · simp only [watchguardStep, watchguardLine]
      rw [watchguardBody_ws _ hne hws]
    · simp only [paloStep, paloLine]
      rw [paloBody_ws _ hne hws]

/-- Witness for C9 at concrete lines: a lone newline is `empty` everywhere; a
space-tab line is a format mismatch (missing prefix for Palo Alto). -/
theorem c9_empty_versus_whitespace_witness :
    merakiStep "\n" = .ok (.reject "empty") ∧
    paloStep "\n" = .ok (.reject "empty") ∧
    merakiStep " \t" = .ok (.reject "format-mismatch") ∧
    unifiStepFn " \t" = .ok (.reject "format-mismatch") ∧
    watchguardStep " \t" = .ok (.reject "format-mismatch") ∧
    paloStep " \t" = .ok (.reject "missing-prefix") := by
  have hws := (c9_empty_versus_whitespace " \t").2.2.2.2 (by decide) (by decide)
  exact ⟨(c9_empty_versus_whitespace "\n").1.mpr (by decide),
    (c9_empty_versus_whitespace "\n").2.2.2.1.mpr (by decide),
    hws.1, hws.2.1, hws.2.2.1, hws.2.2.2⟩
